import Mathlib

/-!
Verification of the code-index pipeline (project/infra/code-index):
a shallow embedding of `models.py`, `arcadedb_client.py`, `indexer.py`,
`parser.py` and the search endpoint of `api.py`, together with proofs of
the stated behavioural properties.

External collaborators (the tree-sitter parser, the embedding model, the
ArcadeDB server, the filesystem and git) are modelled as explicit inputs:
the store is a list of records, extraction and embedding are environment
functions, and the store's `ORDER BY score ASC` is modelled by sorting.
Floating-point scores are modelled as rationals.
-/

namespace CodeIndex

/-- Language enum from `models.py` (`Language`). -/
inductive Language where
  | csharp
  | javascript
  | typescript
  | python
deriving DecidableEq

/-- String value of each `Language` member, as in `models.py`. -/
def Language.value : Language → String
  | .csharp => "csharp"
  | .javascript => "javascript"
  | .typescript => "typescript"
  | .python => "python"

/-- Inverse of `Language.value`: the `Language(...)` constructor on strings,
`none` when the string names no member (Python raises `ValueError`). -/
def langOfString (s : String) : Option Language :=
  if s = "csharp" then some .csharp
  else if s = "javascript" then some .javascript
  else if s = "typescript" then some .typescript
  else if s = "python" then some .python
  else none

/-- NodeType enum from `models.py` (`NodeType`). -/
inductive NodeType where
  | cls
  | iface
  | struct
  | record
  | enum
  | method
  | constructor
  | property
  | field
  | event
  | delegate
  | nspace
  | function
  | arrowFunction
  | classDeclaration
  | methodDefinition
  | functionDef
  | classDef
  | asyncFunctionDef
  | block
  | unknown
deriving DecidableEq

/-- String value of each `NodeType` member, as in `models.py`. -/
def NodeType.value : NodeType → String
  | .cls => "class"
  | .iface => "interface"
  | .struct => "struct"
  | .record => "record"
  | .enum => "enum"
  | .method => "method"
  | .constructor => "constructor"
  | .property => "property"
  | .field => "field"
  | .event => "event"
  | .delegate => "delegate"
  | .nspace => "namespace"
  | .function => "function"
  | .arrowFunction => "arrow_function"
  | .classDeclaration => "class_declaration"
  | .methodDefinition => "method_definition"
  | .functionDef => "function_def"
  | .classDef => "class_def"
  | .asyncFunctionDef => "async_function_def"
  | .block => "block"
  | .unknown => "unknown"

/-- Inverse of `NodeType.value`: the `NodeType(...)` constructor on strings,
`none` when the string names no member. -/
def nodeTypeOfString (s : String) : Option NodeType :=
  if s = "class" then some .cls
  else if s = "interface" then some .iface
  else if s = "struct" then some .struct
  else if s = "record" then some .record
  else if s = "enum" then some .enum
  else if s = "method" then some .method
  else if s = "constructor" then some .constructor
  else if s = "property" then some .property
  else if s = "field" then some .field
  else if s = "event" then some .event
  else if s = "delegate" then some .delegate
  else if s = "namespace" then some .nspace
  else if s = "function" then some .function
  else if s = "arrow_function" then some .arrowFunction
  else if s = "class_declaration" then some .classDeclaration
  else if s = "method_definition" then some .methodDefinition
  else if s = "function_def" then some .functionDef
  else if s = "class_def" then some .classDef
  else if s = "async_function_def" then some .asyncFunctionDef
  else if s = "block" then some .block
  else if s = "unknown" then some .unknown
  else none

/-- `CodeChunk` from `models.py`. Timestamps are abstract `Nat` instants;
embeddings are rational vectors. `similarity_score` carries the raw score
that `ArcadeDbClient._record_to_chunk` copies out of a search record. -/
structure CodeChunk where
  id : Option Nat
  file_path : String
  fully_qualified_name : String
  node_type : NodeType
  language : Language
  content : String
  start_line : Nat
  end_line : Nat
  embedding : Option (List Rat)
  last_modified : Option Nat
  similarity_score : Option Rat
  token_count : Option Nat
  char_count : Nat
deriving DecidableEq

/-- One stored `CodeChunk` vertex in ArcadeDB: the property set written by
`ArcadeDbClient.upsert_chunk` (enum-valued columns hold their string values,
as in the INSERT statement). `rid` models the record id `@rid`. -/
structure StoredRecord where
  rid : Nat
  filePath : String
  fullyQualifiedName : String
  nodeType : String
  language : String
  content : String
  startLine : Nat
  endLine : Nat
  embedding : List Rat
  lastModified : Option Nat
  tokenCount : Nat
  charCount : Nat
deriving DecidableEq

/-- The vector store: its records plus a fresh-rid counter. -/
structure Store where
  records : List StoredRecord
  nextRid : Nat
deriving DecidableEq

/-- The identity-key lookup predicate of `upsert_chunk`:
`filePath = :filePath AND fullyQualifiedName = :fqn`. -/
def chunkKey (c : CodeChunk) (r : StoredRecord) : Bool :=
  decide (r.filePath = c.file_path ∧ r.fullyQualifiedName = c.fully_qualified_name)

/-- The record built by the INSERT branch of `upsert_chunk`
(`embedding_list = chunk.embedding if chunk.embedding else []`,
`tokenCount = chunk.token_count or 0`). -/
def mkStoredRecord (rid : Nat) (c : CodeChunk) : StoredRecord :=
  { rid := rid
    filePath := c.file_path
    fullyQualifiedName := c.fully_qualified_name
    nodeType := c.node_type.value
    language := c.language.value
    content := c.content
    startLine := c.start_line
    endLine := c.end_line
    embedding := c.embedding.getD []
    lastModified := c.last_modified
    tokenCount := c.token_count.getD 0
    charCount := c.char_count }

/-- The UPDATE branch of `upsert_chunk`: the SET clause touches exactly
content, startLine, endLine, embedding, lastModified, tokenCount, charCount. -/
def applyChunkUpdate (c : CodeChunk) (r : StoredRecord) : StoredRecord :=
  { r with
    content := c.content
    startLine := c.start_line
    endLine := c.end_line
    embedding := c.embedding.getD []
    lastModified := c.last_modified
    tokenCount := c.token_count.getD 0
    charCount := c.char_count }

/-- `ArcadeDbClient.upsert_chunk`: look up by (filePath, fullyQualifiedName);
if a record exists, UPDATE the first hit by its `@rid` and report
`was_update = true`; otherwise INSERT a new record and report `false`.
Returns (store, record id, was_update). -/
def upsert_chunk (s : Store) (c : CodeChunk) : Store × Option Nat × Bool :=
  match s.records.filter (chunkKey c) with
  | [] =>
      ({ records := s.records ++ [mkStoredRecord s.nextRid c], nextRid := s.nextRid + 1 },
       some s.nextRid, false)
  | r :: _ =>
      ({ s with records :=
          s.records.map (fun x => if x.rid = r.rid then applyChunkUpdate c x else x) },
       some r.rid, true)

/-- `ArcadeDbClient.delete_chunks_by_file`:
`DELETE FROM CodeChunk WHERE filePath = :filePath`, returning the count. -/
def delete_chunks_by_file (s : Store) (file : String) : Store × Nat :=
  let remaining := s.records.filter (fun r => decide (r.filePath ≠ file))
  ({ s with records := remaining }, s.records.length - remaining.length)

/-- Language-filter condition built by `search_similar`: the clause
`language IN :languages` is added only when the Python list is truthy
(present and non-empty). -/
def langCond (langF : Option (List Language)) (r : StoredRecord) : Bool :=
  match langF with
  | none => true
  | some [] => true
  | some ls => decide (r.language ∈ ls.map Language.value)

/-- Node-type-filter condition built by `search_similar`
(`nodeType IN :nodeTypes`, skipped for an absent or empty list). -/
def typeCond (typeF : Option (List NodeType)) (r : StoredRecord) : Bool :=
  match typeF with
  | none => true
  | some [] => true
  | some ts => decide (r.nodeType ∈ ts.map NodeType.value)

/-- Python `str.startswith`: prefix test on the character sequence. -/
def pyStartsWith (s p : String) : Bool :=
  p.data.isPrefixOf s.data

/-- SQL LIKE pattern matching over character sequences: `%` matches any
(possibly empty) run, `_` matches exactly one character, everything else is
literal. The client sends the user's path filter unescaped, so the store
interprets it with these metacharacters. -/
def likeMatch : List Char → List Char → Bool
  | [], s => s.isEmpty
  | c :: ps, s =>
      if c = '%' then s.tails.any (fun t => likeMatch ps t)
      else
        match s with
        | [] => false
        | d :: ss => (c == '_' || c == d) && likeMatch ps ss

/-- SQL LIKE on strings. -/
def sqlLikeMatch (pat s : String) : Bool :=
  likeMatch pat.data s.data

/-- Path-filter condition built by `search_similar`: the clause
`filePath LIKE :filePathPrefix` with parameter `p ++ "%"`, skipped when the
Python string is falsy (absent or empty). The prefix is embedded in the
LIKE pattern without escaping, so wildcard characters inside it keep their
pattern meaning. -/
def pathCond (pathF : Option String) (r : StoredRecord) : Bool :=
  match pathF with
  | none => true
  | some p => if p = "" then true else sqlLikeMatch (p ++ "%") r.filePath

/-- Conjunction of the WHERE conditions of `search_similar`
(`" AND ".join(where_conditions)`). -/
def matchesFilters (langF : Option (List Language)) (typeF : Option (List NodeType))
    (pathF : Option String) (r : StoredRecord) : Bool :=
  langCond langF r && typeCond typeF r && pathCond pathF r

/-- Ascending comparison on the computed score column, used to model the
store honouring `ORDER BY score ASC`. -/
def scoreLe (a b : StoredRecord × Rat) : Prop := a.2 ≤ b.2

instance : DecidableRel scoreLe := fun a b => inferInstanceAs (Decidable (a.2 ≤ b.2))

instance : IsTotal (StoredRecord × Rat) scoreLe := ⟨fun a b => le_total a.2 b.2⟩

instance : IsTrans (StoredRecord × Rat) scoreLe := ⟨fun _ _ _ h1 h2 => le_trans h1 h2⟩

/-- `ArcadeDbClient._record_to_chunk`: convert a store record (plus its
`score` column) back to a `CodeChunk`; `none` when an enum column fails to
parse (the function catches the error and drops the record). The source
substitutes the current time for a missing `lastModified`; the model keeps
the optional value, which no claim observes. -/
def recordToChunk (r : StoredRecord) (score : Rat) : Option CodeChunk :=
  match langOfString r.language, nodeTypeOfString r.nodeType with
  | some lang, some nt =>
      some { id := some r.rid
             file_path := r.filePath
             fully_qualified_name := r.fullyQualifiedName
             node_type := nt
             language := lang
             content := r.content
             start_line := r.startLine
             end_line := r.endLine
             embedding := some r.embedding
             last_modified := r.lastModified
             similarity_score := some score
             token_count := some r.tokenCount
             char_count := r.charCount }
  | _, _ => none

/-- `ArcadeDbClient.search_similar`: the query selects records matching the
WHERE conditions, computes `vectorDistance(embedding, query)` as `score`
(`dist` models the store's distance function), orders by `score ASC`,
limits to `top_k`, and converts each record via `_record_to_chunk`. -/
def search_similar (records : List StoredRecord) (dist : List Rat → List Rat → Rat)
    (embedding : List Rat) (top_k : Nat) (langF : Option (List Language))
    (typeF : Option (List NodeType)) (pathF : Option String) : List CodeChunk :=
  ((List.insertionSort scoreLe
      ((records.filter (matchesFilters langF typeF pathF)).map
        (fun r => (r, dist r.embedding embedding)))).take top_k).filterMap
    (fun p => recordToChunk p.1 p.2)

/-- `SearchResult` from `models.py` (the chunk, the clamped score, the rank). -/
structure SearchResult where
  chunk : CodeChunk
  similarity_score : Rat
  rank : Nat
deriving DecidableEq

/-- Clamp of `api.search`: `min(max(score, 0.0), 1.0)`. -/
def clampScore (s : Rat) : Rat := min (max s 0) 1

/-- The result-building loop of `api.search`: strip content unless
`include_content`, strip embedding unless `include_embedding`, read the raw
score (0.0 when absent) and clamp it, and assign rank `i + 1` over the
enumeration of the store's result order. -/
def buildSearchResults (include_content include_embedding : Bool)
    (results : List CodeChunk) : List SearchResult :=
  results.enum.map (fun p =>
    let c0 := p.2
    let c1 := if include_content then c0 else { c0 with content := "" }
    let c2 := if include_embedding then c1 else { c1 with embedding := none }
    { chunk := c2
      similarity_score := clampScore ((p.2).similarity_score.getD 0)
      rank := p.1 + 1 })

/-- The `POST /search` handler's data path: embed the query (the embedding
is an input here), call `search_similar`, post-process into ranked results. -/
def apiSearch (records : List StoredRecord) (dist : List Rat → List Rat → Rat)
    (queryEmbedding : List Rat) (top_k : Nat) (langF : Option (List Language))
    (typeF : Option (List NodeType)) (pathF : Option String)
    (include_content include_embedding : Bool) : List SearchResult :=
  buildSearchResults include_content include_embedding
    (search_similar records dist queryEmbedding top_k langF typeF pathF)

/-- Environment of one indexing run, abstracting the external collaborators
used by `CodeIndexer._process_file`: `extractResult` is the outcome of
`extract_chunks` followed by the (non-failing, count-preserving) token
counting and mtime stamping; `embedResult` is the outcome of
`embed_chunks`, which sets embeddings on the chunks or raises. -/
structure PipelineEnv where
  extractResult : String → Except String (List CodeChunk)
  embedResult : List CodeChunk → Except String (List CodeChunk)

/-- `CodeIndexer._process_file` for one file, paired with the number of
embedder calls it makes: extraction failure propagates; an empty extraction
returns early without embedding; `dry_run` skips the embedder. -/
def processFileModel (env : PipelineEnv) (dry_run : Bool) (file : String) :
    Except String (List CodeChunk) × Nat :=
  match env.extractResult file with
  | .error e => (.error e, 0)
  | .ok chunks =>
      if chunks.isEmpty then (.ok [], 0)
      else if dry_run then (.ok chunks, 0)
      else (env.embedResult chunks, 1)

/-- Aggregate state of a run of `CodeIndexer.index`: the store plus the
counters and error list, instrumented with the number of embedder calls and
of store write operations (upserts and deletes) issued. -/
structure RunState where
  store : Store
  total_chunks : Nat
  indexed_chunks : Nat
  updated_chunks : Nat
  errors : List String
  embedCalls : Nat
  storeWrites : Nat
deriving DecidableEq

/-- The per-chunk body of the upsert loop in `CodeIndexer.index`:
`rid, was_update = upsert_chunk(chunk)`; count an update when `rid` is
truthy and `was_update`, an insert when `rid` is truthy and not. -/
def upsertFold (st : RunState) (c : CodeChunk) : RunState :=
  let res := upsert_chunk st.store c
  { st with
    store := res.1
    storeWrites := st.storeWrites + 1
    indexed_chunks := st.indexed_chunks + (if res.2.1.isSome ∧ res.2.2 = false then 1 else 0)
    updated_chunks := st.updated_chunks + (if res.2.1.isSome ∧ res.2.2 = true then 1 else 0) }

/-- The per-file body of the loop in `CodeIndexer.index`: a raised error is
caught and recorded as `"{file_path}: {message}"`; on success the chunk
count is added to `total_chunks` and, unless `dry_run`, every chunk is
upserted. (The source iterates in batches of 50, which is equivalent to
iterating the list in order.) -/
def processOneFile (env : PipelineEnv) (dry_run : Bool) (st : RunState)
    (fl : String × Language) : RunState :=
  match processFileModel env dry_run fl.1 with
  | (.error e, n) =>
      { st with embedCalls := st.embedCalls + n
                errors := st.errors ++ [fl.1 ++ ": " ++ e] }
  | (.ok chunks, n) =>
      let st2 := { st with embedCalls := st.embedCalls + n
                           total_chunks := st.total_chunks + chunks.length }
      if dry_run then st2 else chunks.foldl upsertFold st2

/-- The delete loop body of `CodeIndexer.index`: unless `dry_run`, delete
every chunk of the file and add the returned count. -/
def deleteFold (dry_run : Bool) (acc : RunState × Nat) (file : String) : RunState × Nat :=
  if dry_run then acc
  else
    let res := delete_chunks_by_file acc.1.store file
    ({ acc.1 with store := res.1, storeWrites := acc.1.storeWrites + 1 }, acc.2 + res.2)

/-- `IndexResponse` from `models.py` (wall-clock duration omitted). -/
structure IndexResponse where
  total_files : Nat
  total_chunks : Nat
  indexed_chunks : Nat
  updated_chunks : Nat
  deleted_chunks : Nat
  errors : List String
deriving DecidableEq

/-- Fresh run state over an initial store. -/
def initState (st0 : Store) : RunState :=
  { store := st0, total_chunks := 0, indexed_chunks := 0, updated_chunks := 0,
    errors := [], embedCalls := 0, storeWrites := 0 }

/-- `CodeIndexer.index` given the selected file lists: a missing source root
returns a single-error zero-count response without touching the store
(the model is a total function: nothing escapes to the caller); otherwise
every file in `files_to_index` is processed in order and then every path in
`files_to_delete` is purged. `total_files` is `len(files_to_index)`. -/
def indexRun (env : PipelineEnv) (st0 : Store) (source_path : String)
    (rootExists : Bool) (files_to_index : List (String × Language))
    (files_to_delete : List String) (dry_run : Bool) : IndexResponse × RunState :=
  if rootExists then
    let afterFiles := files_to_index.foldl (processOneFile env dry_run) (initState st0)
    let afterDeletes := files_to_delete.foldl (deleteFold dry_run) (afterFiles, 0)
    ({ total_files := files_to_index.length
       total_chunks := afterDeletes.1.total_chunks
       indexed_chunks := afterDeletes.1.indexed_chunks
       updated_chunks := afterDeletes.1.updated_chunks
       deleted_chunks := afterDeletes.2
       errors := afterDeletes.1.errors }, afterDeletes.1)
  else
    ({ total_files := 0, total_chunks := 0, indexed_chunks := 0, updated_chunks := 0,
       deleted_chunks := 0,
       errors := ["Source path does not exist: " ++ source_path] }, initState st0)

/-- A tree-sitter node as `CodeExtractor` reads it: its raw type string, its
0-based start/end rows (`start_point[0]`, `end_point[0]`), the source text
it spans, the text of its `name` field child if any, and its direct
children as (type, text) pairs. -/
structure TsNode where
  tsType : String
  startRow : Nat
  endRow : Nat
  text : String
  nameField : Option String
  children : List (String × String)
deriving DecidableEq

/-- `CodeExtractor._map_node_type`: the tree-sitter type → `NodeType` table,
defaulting to `unknown`. -/
def _map_node_type (ts : String) : NodeType :=
  if ts = "class_declaration" then .cls
  else if ts = "class_definition" then .cls
  else if ts = "interface_declaration" then .iface
  else if ts = "struct_declaration" then .struct
  else if ts = "record_declaration" then .record
  else if ts = "record_struct_declaration" then .record
  else if ts = "enum_declaration" then .enum
  else if ts = "method_declaration" then .method
  else if ts = "method_definition" then .method
  else if ts = "function_definition" then .function
  else if ts = "function_declaration" then .function
  else if ts = "async_function_definition" then .function
  else if ts = "constructor_declaration" then .constructor
  else if ts = "property_declaration" then .property
  else if ts = "field_declaration" then .field
  else if ts = "event_declaration" then .event
  else if ts = "delegate_declaration" then .delegate
  else if ts = "arrow_function" then .arrowFunction
  else if ts = "namespace_declaration" then .nspace
  else .unknown

/-- `CodeExtractor._extract_node_name`: prefer the `name` field child, else
the first child whose type is identifier-like, else the empty string. -/
def _extract_node_name (node : TsNode) : String :=
  match node.nameField with
  | some s => s
  | none =>
      match node.children.find? (fun c =>
          decide (c.1 = "identifier" ∨ c.1 = "property_identifier" ∨
                  c.1 = "method_identifier")) with
      | some c => c.2
      | none => ""

/-- Python `str.strip()`: drop leading and trailing whitespace. -/
def pyStrip (s : String) : String :=
  String.mk (((s.data.dropWhile Char.isWhitespace).reverse.dropWhile Char.isWhitespace).reverse)

/-- `CodeExtractor._create_chunk`: discard whitespace-only nodes; qualify
the name with the file's namespace when both are non-empty (Python
truthiness of `if namespace and name:` and of `name or fallback`); fall
back to `f"{node.type}_{node.start_point[0]}"`; line numbers are the
0-based rows plus one. -/
def _create_chunk (node : TsNode) (file_path : String) (nspace : String)
    (language : Language) : Option CodeChunk :=
  if pyStrip node.text = "" then none
  else
    let name := _extract_node_name node
    let fqn :=
      if nspace ≠ "" ∧ name ≠ "" then nspace ++ "." ++ name
      else if name ≠ "" then name
      else node.tsType ++ "_" ++ toString node.startRow
    some { id := none
           file_path := file_path
           fully_qualified_name := fqn
           node_type := _map_node_type node.tsType
           language := language
           content := node.text
           start_line := node.startRow + 1
           end_line := node.endRow + 1
           embedding := none
           last_modified := none
           similarity_score := none
           token_count := none
           char_count := node.text.length }

/-- A filesystem path as `pathlib.Path` presents it to this code: the whole
path string, its segments (`Path.parts`), and its lowercased extension
(`Path.suffix.lower()`). -/
structure FsFile where
  pathStr : String
  parts : List String
  suffix : String
deriving DecidableEq

/-- The directory skip-list of `find_source_files`: any dotfile-prefixed
segment, `node_modules`, `bin`, `obj`, or `__pycache__` anywhere in the
path. -/
def isExcludedPath (parts : List String) : Bool :=
  parts.any (fun p => pyStartsWith p ".") ||
  decide ("node_modules" ∈ parts) ||
  decide ("bin" ∈ parts) || decide ("obj" ∈ parts) ||
  decide ("__pycache__" ∈ parts)

/-- `LANGUAGE_EXTENSIONS` from `parser.py`. -/
def languageExtensions (l : Language) : List String :=
  match l with
  | .csharp => [".cs"]
  | .javascript => [".js", ".jsx"]
  | .typescript => [".ts", ".tsx"]
  | .python => [".py"]

/-- `detect_language` from `parser.py`: match the lowercased suffix against
the extension table. -/
def detect_language (suffix : String) : Option Language :=
  if suffix = ".cs" then some .csharp
  else if suffix = ".js" ∨ suffix = ".jsx" then some .javascript
  else if suffix = ".ts" ∨ suffix = ".tsx" then some .typescript
  else if suffix = ".py" then some .python
  else none

/-- Union of the requested languages' extensions, as built at the top of
`find_source_files`. -/
def extensionsOf (langs : List Language) : List String :=
  langs.foldr (fun l acc => languageExtensions l ++ acc) []

/-- `find_source_files` over the files visible under the root (the
`rglob(f"*{ext}")` walks): keep a file when its suffix matches a requested
extension, no path segment is excluded, and `detect_language` succeeds. -/
def find_source_files (files : List FsFile) (langs : List Language) :
    List (FsFile × Language) :=
  files.filterMap (fun f =>
    if decide (f.suffix ∈ extensionsOf langs) then
      if isExcludedPath f.parts then none
      else
        match detect_language f.suffix with
        | some l => some (f, l)
        | none => none
    else none)

/-- One `git diff HEAD` entry as `_get_changed_files` reads it: the old and
new paths (already joined with the repo root), the `deleted_file` flag and
the change type letter. -/
structure DiffItem where
  aPath : Option FsFile
  bPath : Option FsFile
  deletedFile : Bool
  changeType : String
deriving DecidableEq

/-- The body of the diff loop in `_get_changed_files` for one item,
folding over (changed, deleted). Deletions record `a_path or b_path`;
renames record the old path as deleted and index the new path when it still
exists and its language is requested; modifications/additions index
`a_path or b_path` under the same conditions. No directory filtering
happens here. -/
def diffStep (existsFs : FsFile → Bool) (langs : List Language)
    (acc : List (FsFile × Language) × List String) (d : DiffItem) :
    List (FsFile × Language) × List String :=
  if d.deletedFile then
    match d.aPath.or d.bPath with
    | some p => (acc.1, acc.2 ++ [p.pathStr])
    | none => acc
  else if d.changeType = "R" then
    let acc2 := match d.aPath with
      | some a => (acc.1, acc.2 ++ [a.pathStr])
      | none => acc
    match d.bPath.or d.aPath with
    | some p =>
        if existsFs p then
          match detect_language p.suffix with
          | some l => if decide (l ∈ langs) then (acc2.1 ++ [(p, l)], acc2.2) else acc2
          | none => acc2
        else acc2
    | none => acc2
  else if d.changeType = "M" ∨ d.changeType = "A" then
    match d.aPath.or d.bPath with
    | some p =>
        if existsFs p then
          match detect_language p.suffix with
          | some l => if decide (l ∈ langs) then (acc.1 ++ [(p, l)], acc.2) else acc
          | none => acc
        else acc
    | none => acc
  else acc

/-- `CodeIndexer._get_changed_files`: on any git failure (`gitOk = false`)
fall back to the full scan with an empty delete list; otherwise fold the
diff entries, then append every untracked file whose detected language is
requested — again without any directory filtering. -/
def _get_changed_files (diff : List DiffItem) (untracked : List FsFile)
    (existsFs : FsFile → Bool) (langs : List Language) (gitOk : Bool)
    (allFiles : List FsFile) : List (FsFile × Language) × List String :=
  if gitOk then
    let afterDiff := diff.foldl (diffStep existsFs langs) ([], [])
    let changed := untracked.foldl (fun acc f =>
      match detect_language f.suffix with
      | some l => if decide (l ∈ langs) then acc ++ [(f, l)] else acc
      | none => acc) afterDiff.1
    (changed, afterDiff.2)
  else
    (find_source_files allFiles langs, [])

/-! ### Shared helper lemmas -/

/-- Uniqueness of the identity key (file_path, fully_qualified_name) across
the stored records. -/
def StoreUniqueKeys (s : Store) : Prop :=
  s.records.Pairwise (fun a b =>
    ¬(a.filePath = b.filePath ∧ a.fullyQualifiedName = b.fullyQualifiedName))

instance (s : Store) : Decidable (StoreUniqueKeys s) :=
  inferInstanceAs (Decidable (s.records.Pairwise _))

theorem storeUniqueKeys_upsert (s : Store) (c : CodeChunk) (h : StoreUniqueKeys s) :
    StoreUniqueKeys (upsert_chunk s c).1 := by
  unfold StoreUniqueKeys at *
  cases hfil : s.records.filter (chunkKey c) with
  | nil =>
      simp only [upsert_chunk, hfil]
      rw [List.pairwise_append]
      refine ⟨h, List.pairwise_singleton _ _, ?_⟩
      intro a ha b hb
      have hb' : b = mkStoredRecord s.nextRid c := by simpa using hb
      subst hb'
      have hkey := List.filter_eq_nil_iff.mp hfil a ha
      simp only [chunkKey, decide_eq_true_eq] at hkey
      simpa [mkStoredRecord] using hkey
  | cons r rest =>
      simp only [upsert_chunk, hfil]
      refine List.Pairwise.map _ ?_ h
      intro a b hab
      by_cases h1 : a.rid = r.rid <;> by_cases h2 : b.rid = r.rid <;>
        simpa [h1, h2, applyChunkUpdate] using hab

theorem storeUniqueKeys_delete (s : Store) (f : String) (h : StoreUniqueKeys s) :
    StoreUniqueKeys (delete_chunks_by_file s f).1 :=
  List.Pairwise.sublist (List.filter_sublist _) h

theorem storeUniqueKeys_upsertFoldList (cs : List CodeChunk) :
    ∀ st : RunState, StoreUniqueKeys st.store →
      StoreUniqueKeys ((cs.foldl upsertFold st).store) := by
  induction cs with
  | nil => intro st h; exact h
  | cons c cs ih =>
      intro st h
      rw [List.foldl_cons]
      exact ih _ (storeUniqueKeys_upsert st.store c h)

theorem storeUniqueKeys_processOneFile (env : PipelineEnv) (dry : Bool)
    (st : RunState) (fl : String × Language) (h : StoreUniqueKeys st.store) :
    StoreUniqueKeys ((processOneFile env dry st fl).store) := by
  unfold processOneFile
  cases hp : processFileModel env dry fl.1 with
  | mk res n =>
      cases res with
      | error e => simpa using h
      | ok chunks =>
          simp only []
          split
          · exact h
          · exact storeUniqueKeys_upsertFoldList chunks _ h

theorem storeUniqueKeys_filesFold (env : PipelineEnv) (dry : Bool)
    (files : List (String × Language)) :
    ∀ st : RunState, StoreUniqueKeys st.store →
      StoreUniqueKeys ((files.foldl (processOneFile env dry) st).store) := by
  induction files with
  | nil => intro st h; exact h
  | cons f fs ih =>
      intro st h
      rw [List.foldl_cons]
      exact ih _ (storeUniqueKeys_processOneFile env dry st f h)

theorem storeUniqueKeys_deleteFoldList (dry : Bool) (dels : List String) :
    ∀ acc : RunState × Nat, StoreUniqueKeys acc.1.store →
      StoreUniqueKeys ((dels.foldl (deleteFold dry) acc).1.store) := by
  induction dels with
  | nil => intro acc h; exact h
  | cons d ds ih =>
      intro acc h
      rw [List.foldl_cons]
      refine ih _ ?_
      unfold deleteFold
      split
      · exact h
      · exact storeUniqueKeys_delete acc.1.store d h

/-! ### Concrete fixtures used by counterexamples and witnesses -/

/-- A stored chunk of `f.py` whose originating node is about to disappear. -/
def oldRec : StoredRecord :=
  { rid := 0, filePath := "f.py", fullyQualifiedName := "old_func",
    nodeType := "function", language := "python", content := "def old()",
    startLine := 1, endLine := 1, embedding := [], lastModified := none,
    tokenCount := 0, charCount := 9 }

/-- Store holding only `oldRec`. -/
def st0C1 : Store := { records := [oldRec], nextRid := 1 }

/-- The chunk extracted from `f.py` on re-parse: the old node is gone and a
new one exists. -/
def newChunk : CodeChunk :=
  { id := none, file_path := "f.py", fully_qualified_name := "new_func",
    node_type := .function, language := .python, content := "def new()",
    start_line := 1, end_line := 1, embedding := none, last_modified := some 0,
    similarity_score := none, token_count := some 2, char_count := 9 }

/-- Environment in which re-parsing any file yields exactly `newChunk` and
embedding succeeds unchanged. -/
def envC1 : PipelineEnv :=
  { extractResult := fun _ => .ok [newChunk], embedResult := fun cs => .ok cs }

/-! ### C1 — re-index replacement, stale-chunk removal, key uniqueness -/

/-- Claim C1 (counterexample): re-indexing a still-existing file does NOT
remove chunks of that file whose originating AST node no longer exists on
re-parse. Starting from a store holding chunk `old_func` of `f.py` and
re-indexing `f.py` whose extraction now yields only `new_func`, the final
store still contains a record for `f.py` whose qualified name is not among
the re-extracted ones. -/
theorem c1_stale_chunk_counterexample :
    ¬ (∀ r ∈ (indexRun envC1 st0C1 "proj" true [("f.py", Language.python)] [] false).2.store.records,
        r.filePath = "f.py" → r.fullyQualifiedName ∈ ["new_func"]) := by
  decide

/-- Claim C1 (amended): for every index run, upserting by the identity key
(file_path, fully_qualified_name) replaces rather than duplicates chunks
whose key still exists, so the key stays unique in the index after every
run provided it was unique before; chunks of a still-existing file whose
originating node disappeared are not removed (removal happens only for
files in the delete list). -/
theorem c1_key_uniqueness_preserved (env : PipelineEnv) (st0 : Store)
    (src : String) (rootE : Bool) (files : List (String × Language))
    (dels : List String) (dry : Bool) (h : StoreUniqueKeys st0) :
    StoreUniqueKeys ((indexRun env st0 src rootE files dels dry).2.store) := by
  unfold indexRun
  split
  · exact storeUniqueKeys_deleteFoldList dry dels _
      (storeUniqueKeys_filesFold env dry files (initState st0) h)
  · exact h

/-- Witness for C1: the amended theorem applied to the concrete run of the
counterexample fixture. -/
theorem c1_key_uniqueness_witness :
    StoreUniqueKeys ((indexRun envC1 st0C1 "proj" true [("f.py", Language.python)] [] false).2.store) :=
  c1_key_uniqueness_preserved envC1 st0C1 "proj" true [("f.py", Language.python)] [] false
    (by decide)

/-! ### C2 — upsert lookup, frame of the update, wasUpdate flag -/

/-- Claim C2: upsert looks up an existing record by
(file_path, fully_qualified_name). When one exists it reports
`was_update = true`, every stored record keeps its file_path,
fully_qualified_name, node_type and language, and the updated record holds
the chunk's content, line range, embedding, timestamp and counts. When none
exists it reports `was_update = false` and appends a freshly built record. -/
theorem c2_upsert_semantics (s : Store) (c : CodeChunk) :
    ((∃ r ∈ s.records, chunkKey c r = true) →
      (upsert_chunk s c).2.2 = true ∧
      List.Forall₂ (fun old new =>
          new.filePath = old.filePath ∧
          new.fullyQualifiedName = old.fullyQualifiedName ∧
          new.nodeType = old.nodeType ∧ new.language = old.language)
        s.records (upsert_chunk s c).1.records ∧
      ∃ u ∈ (upsert_chunk s c).1.records, chunkKey c u = true ∧
        u.content = c.content ∧ u.startLine = c.start_line ∧
        u.endLine = c.end_line ∧ u.embedding = c.embedding.getD [] ∧
        u.lastModified = c.last_modified ∧
        u.tokenCount = c.token_count.getD 0 ∧ u.charCount = c.char_count) ∧
    ((∀ r ∈ s.records, chunkKey c r = false) →
      (upsert_chunk s c).2.2 = false ∧
      (upsert_chunk s c).1.records = s.records ++ [mkStoredRecord s.nextRid c]) := by
  cases hfil : s.records.filter (chunkKey c) with
  | nil =>
      constructor
      · rintro ⟨r, hr, hk⟩
        have hmem : r ∈ s.records.filter (chunkKey c) := List.mem_filter.mpr ⟨hr, hk⟩
        rw [hfil] at hmem
        cases hmem
      · intro _
        refine ⟨?_, ?_⟩ <;> simp [upsert_chunk, hfil]
  | cons r rest =>
      have hrfil : r ∈ s.records.filter (chunkKey c) := by
        rw [hfil]; exact List.mem_cons_self r rest
      have hr : r ∈ s.records := List.mem_of_mem_filter hrfil
      have hk : chunkKey c r = true := List.of_mem_filter hrfil
      constructor
      · intro _
        refine ⟨by simp [upsert_chunk, hfil], ?_, ?_⟩
        · simp only [upsert_chunk, hfil]
          rw [List.forall₂_map_right_iff, List.forall₂_same]
          intro x _
          by_cases hx : x.rid = r.rid <;> simp [hx, applyChunkUpdate]
        · refine ⟨applyChunkUpdate c r, ?_, ?_, ?_⟩
          · simp only [upsert_chunk, hfil]
            have heq : (fun x => if x.rid = r.rid then applyChunkUpdate c x else x) r
                = applyChunkUpdate c r := by simp
            exact heq ▸ List.mem_map_of_mem _ hr
          · simp only [chunkKey, applyChunkUpdate, decide_eq_true_eq] at hk ⊢
            exact hk
          · simp [applyChunkUpdate]
      · intro hall
        have := hall r hr
        rw [hk] at this
        cases this

/-- Witness for C2: a store holding a record with the chunk's identity key
reports an update. -/
theorem c2_upsert_witness :
    (upsert_chunk { records := [oldRec], nextRid := 1 }
       { newChunk with fully_qualified_name := "old_func" }).2.2 = true :=
  ((c2_upsert_semantics { records := [oldRec], nextRid := 1 }
      { newChunk with fully_qualified_name := "old_func" }).1
    ⟨oldRec, by decide, by decide⟩).1

/-! ### C9 — missing source root -/

/-- Claim C9: when the source root does not exist, `index` returns exactly
one error entry and zero for every count; the model is a total function, so
nothing is raised to the caller. -/
theorem c9_missing_root (env : PipelineEnv) (st0 : Store) (src : String)
    (files : List (String × Language)) (dels : List String) (dry : Bool) :
    (indexRun env st0 src false files dels dry).1.errors
        = ["Source path does not exist: " ++ src] ∧
    (indexRun env st0 src false files dels dry).1.total_files = 0 ∧
    (indexRun env st0 src false files dels dry).1.total_chunks = 0 ∧
    (indexRun env st0 src false files dels dry).1.indexed_chunks = 0 ∧
    (indexRun env st0 src false files dels dry).1.updated_chunks = 0 ∧
    (indexRun env st0 src false files dels dry).1.deleted_chunks = 0 := by
  simp [indexRun]

/-! ### C10 — total_files is the discovered count -/

/-- Claim C10: `total_files` equals the length of the selected to-index
list — files are counted even when their processing errored, and the
delete-only list has no influence on it. -/
theorem c10_total_files (env : PipelineEnv) (st0 : Store) (src : String)
    (files : List (String × Language)) (dels dels' : List String) (dry : Bool) :
    (indexRun env st0 src true files dels dry).1.total_files = files.length ∧
    (indexRun env st0 src true files dels dry).1.total_files
      = (indexRun env st0 src true files dels' dry).1.total_files := by
  simp [indexRun]

/-! ### Fold characterizations for C3 and C4 -/

/-- Number of chunks extraction yields for a file (zero on failure). -/
def extractedCount (env : PipelineEnv) (file : String) : Nat :=
  match env.extractResult file with
  | .ok cs => cs.length
  | .error _ => 0

/-- Error entry a file contributes to the run, if any. -/
def errOf (env : PipelineEnv) (dry : Bool) (fl : String × Language) : Option String :=
  match (processFileModel env dry fl.1).1 with
  | .error e => some (fl.1 ++ ": " ++ e)
  | .ok _ => none

/-- Chunk count a file contributes to `total_chunks` (zero on failure). -/
def okLen (env : PipelineEnv) (dry : Bool) (fl : String × Language) : Nat :=
  match (processFileModel env dry fl.1).1 with
  | .error _ => 0
  | .ok cs => cs.length

theorem processFileModel_dry (env : PipelineEnv) (f : String) :
    processFileModel env true f = (env.extractResult f, 0) := by
  unfold processFileModel
  cases env.extractResult f with
  | error e => rfl
  | ok chunks =>
      by_cases hc : chunks.isEmpty
      · rw [List.isEmpty_iff.mp hc]
        simp
      · simp [hc]

theorem upsertFoldList_frame (cs : List CodeChunk) :
    ∀ st : RunState,
      (cs.foldl upsertFold st).errors = st.errors ∧
      (cs.foldl upsertFold st).total_chunks = st.total_chunks ∧
      (cs.foldl upsertFold st).embedCalls = st.embedCalls := by
  induction cs with
  | nil => intro st; exact ⟨rfl, rfl, rfl⟩
  | cons c cs ih =>
      intro st
      rw [List.foldl_cons]
      exact ih (upsertFold st c)

theorem processOneFile_errors_total (env : PipelineEnv) (dry : Bool)
    (st : RunState) (fl : String × Language) :
    (processOneFile env dry st fl).errors = st.errors ++ (errOf env dry fl).toList ∧
    (processOneFile env dry st fl).total_chunks = st.total_chunks + okLen env dry fl := by
  unfold processOneFile errOf okLen
  cases hp : processFileModel env dry fl.1 with
  | mk res n =>
      cases res with
      | error e => simp
      | ok cs =>
          simp only []
          split
          · simp
          · obtain ⟨he, ht, _⟩ := upsertFoldList_frame cs
              { st with embedCalls := st.embedCalls + n,
                        total_chunks := st.total_chunks + cs.length }
            rw [he, ht]
            simp

theorem filesFold_errors_total (env : PipelineEnv) (dry : Bool)
    (files : List (String × Language)) :
    ∀ st : RunState,
      (files.foldl (processOneFile env dry) st).errors
          = st.errors ++ files.filterMap (errOf env dry) ∧
      (files.foldl (processOneFile env dry) st).total_chunks
          = st.total_chunks + (files.map (okLen env dry)).sum := by
  induction files with
  | nil => intro st; simp
  | cons f fs ih =>
      intro st
      rw [List.foldl_cons]
      obtain ⟨he, ht⟩ := ih (processOneFile env dry st f)
      obtain ⟨he1, ht1⟩ := processOneFile_errors_total env dry st f
      rw [he, ht, he1, ht1]
      constructor
      · rw [List.filterMap_cons]
        cases errOf env dry f <;> simp
      · rw [List.map_cons, List.sum_cons]
        omega

theorem deleteFoldList_frame (dry : Bool) (dels : List String) :
    ∀ acc : RunState × Nat,
      ((dels.foldl (deleteFold dry) acc).1.errors = acc.1.errors) ∧
      ((dels.foldl (deleteFold dry) acc).1.total_chunks = acc.1.total_chunks) ∧
      ((dels.foldl (deleteFold dry) acc).1.embedCalls = acc.1.embedCalls) := by
  induction dels with
  | nil => intro acc; exact ⟨rfl, rfl, rfl⟩
  | cons d ds ih =>
      intro acc
      rw [List.foldl_cons]
      obtain ⟨he, ht, hm⟩ := ih (deleteFold dry acc d)
      rw [he, ht, hm]
      unfold deleteFold
      split <;> simp

theorem deleteFoldList_dry (dels : List String) :
    ∀ acc : RunState × Nat, dels.foldl (deleteFold true) acc = acc := by
  induction dels with
  | nil => intro acc; rfl
  | cons d ds ih =>
      intro acc
      rw [List.foldl_cons]
      exact ih acc

theorem dryFilesFold_frame (env : PipelineEnv) (files : List (String × Language)) :
    ∀ st : RunState,
      (files.foldl (processOneFile env true) st).store = st.store ∧
      (files.foldl (processOneFile env true) st).embedCalls = st.embedCalls ∧
      (files.foldl (processOneFile env true) st).storeWrites = st.storeWrites := by
  induction files with
  | nil => intro st; exact ⟨rfl, rfl, rfl⟩
  | cons f fs ih =>
      intro st
      rw [List.foldl_cons]
      obtain ⟨hs, he, hw⟩ := ih (processOneFile env true st f)
      rw [hs, he, hw]
      unfold processOneFile
      rw [processFileModel_dry]
      cases env.extractResult f.1 <;> simp

/-! ### C3 — dry-run purity -/

/-- Claim C3: a dry run makes no embedder call, issues no store write
(neither upsert nor delete — the store is returned untouched and the
deleted count is zero), and still reports `total_chunks` as the number of
chunks extracted from all processed files. -/
theorem c3_dry_run_purity (env : PipelineEnv) (st0 : Store) (src : String)
    (rootE : Bool) (files : List (String × Language)) (dels : List String) :
    (indexRun env st0 src rootE files dels true).2.embedCalls = 0 ∧
    (indexRun env st0 src rootE files dels true).2.storeWrites = 0 ∧
    (indexRun env st0 src rootE files dels true).2.store = st0 ∧
    (indexRun env st0 src rootE files dels true).1.deleted_chunks = 0 ∧
    (indexRun env st0 src rootE files dels true).1.total_chunks
      = (if rootE then (files.map (fun fl => extractedCount env fl.1)).sum else 0) := by
  cases rootE with
  | false => simp [indexRun, initState]
  | true =>
      have hdel := deleteFoldList_dry dels
        (files.foldl (processOneFile env true) (initState st0), 0)
      obtain ⟨hs, he, hw⟩ := dryFilesFold_frame env files (initState st0)
      obtain ⟨_, ht⟩ := filesFold_errors_total env true files (initState st0)
      have hok : okLen env true = fun fl => extractedCount env fl.1 := by
        funext fl
        unfold okLen extractedCount
        rw [processFileModel_dry]
        cases env.extractResult fl.1 <;> rfl
      simp only [indexRun, if_true]
      rw [hdel]
      refine ⟨he, hw, hs, rfl, ?_⟩
      rw [ht, hok]
      simp [initState]

/-! ### C4 — per-file error isolation -/

/-- Claim C4: the run's error list is exactly, in file order, the entry
`"{file_path}: {message}"` for each file whose processing raised, and every
file contributes its chunk count independently of earlier failures — a
single bad file neither aborts the run nor hides later files. -/
theorem c4_per_file_errors (env : PipelineEnv) (st0 : Store) (src : String)
    (files : List (String × Language)) (dels : List String) (dry : Bool) :
    (indexRun env st0 src true files dels dry).1.errors
        = files.filterMap (errOf env dry) ∧
    (indexRun env st0 src true files dels dry).1.total_chunks
        = (files.map (okLen env dry)).sum := by
  obtain ⟨hde, hdt, _⟩ := deleteFoldList_frame dry dels
    (files.foldl (processOneFile env dry) (initState st0), 0)
  obtain ⟨he, ht⟩ := filesFold_errors_total env dry files (initState st0)
  simp only [indexRun, if_true]
  constructor
  · rw [hde, he]
    simp [initState]
  · rw [hdt, ht]
    simp [initState]

/-! ### Helper lemmas for the search path (C5, C6) -/

theorem recordToChunk_score (r : StoredRecord) (s : Rat) (c : CodeChunk)
    (h : recordToChunk r s = some c) : c.similarity_score = some s := by
  unfold recordToChunk at h
  cases hl : langOfString r.language with
  | none => rw [hl] at h; simp at h
  | some lang =>
      rw [hl] at h
      cases hn : nodeTypeOfString r.nodeType with
      | none => rw [hn] at h; simp at h
      | some nt =>
          rw [hn] at h
          simp only [Option.some.injEq] at h
          rw [← h]

theorem filterMap_scores_sublist (l : List (StoredRecord × Rat)) :
    List.Sublist
      ((l.filterMap (fun p => recordToChunk p.1 p.2)).map
        (fun c => c.similarity_score.getD 0))
      (l.map (fun p => p.2)) := by
  induction l with
  | nil => simp
  | cons p ps ih =>
      rw [List.filterMap_cons]
      cases hp : recordToChunk p.1 p.2 with
      | none =>
          rw [List.map_cons]
          exact ih.cons p.2
      | some c =>
          rw [List.map_cons, List.map_cons]
          have hc := recordToChunk_score p.1 p.2 c hp
          rw [hc]
          exact ih.cons₂ _

theorem search_similar_scores_sorted (records : List StoredRecord)
    (dist : List Rat → List Rat → Rat) (emb : List Rat) (topK : Nat)
    (langF : Option (List Language)) (typeF : Option (List NodeType))
    (pathF : Option String) :
    List.Sorted (fun a b : Rat => a ≤ b)
      ((search_similar records dist emb topK langF typeF pathF).map
        (fun c => c.similarity_score.getD 0)) := by
  unfold search_similar
  have hsorted := List.sorted_insertionSort scoreLe
    ((records.filter (matchesFilters langF typeF pathF)).map
      (fun r => (r, dist r.embedding emb)))
  have htake : List.Sorted scoreLe
      ((List.insertionSort scoreLe
        ((records.filter (matchesFilters langF typeF pathF)).map
          (fun r => (r, dist r.embedding emb)))).take topK) :=
    List.Pairwise.sublist (List.take_sublist _ _) hsorted
  have hmap : List.Sorted (fun a b : Rat => a ≤ b)
      (((List.insertionSort scoreLe
        ((records.filter (matchesFilters langF typeF pathF)).map
          (fun r => (r, dist r.embedding emb)))).take topK).map
        (fun p => p.2)) :=
    List.Pairwise.map _ (fun _ _ h => h) htake
  exact List.Pairwise.sublist (filterMap_scores_sublist _) hmap

theorem clampScore_mono {a b : Rat} (h : a ≤ b) : clampScore a ≤ clampScore b :=
  min_le_min (max_le_max h le_rfl) le_rfl

theorem buildSearchResults_scores (ic ie : Bool) (results : List CodeChunk) :
    (buildSearchResults ic ie results).map (fun r => r.similarity_score)
      = results.map (fun c => clampScore (c.similarity_score.getD 0)) := by
  unfold buildSearchResults
  rw [List.map_map]
  have hfn : ((fun r : SearchResult => r.similarity_score) ∘ (fun p : Nat × CodeChunk =>
      let c0 := p.2
      let c1 := if ic then c0 else { c0 with content := "" }
      let c2 := if ie then c1 else { c1 with embedding := none }
      { chunk := c2
        similarity_score := clampScore ((p.2).similarity_score.getD 0)
        rank := p.1 + 1 }))
      = (fun c : CodeChunk => clampScore (c.similarity_score.getD 0)) ∘ Prod.snd := rfl
  rw [hfn, ← List.map_map, List.enum_map_snd]

theorem buildSearchResults_ranks (ic ie : Bool) (results : List CodeChunk) :
    (buildSearchResults ic ie results).map (fun r => r.rank)
      = (List.range results.length).map (fun i => i + 1) := by
  unfold buildSearchResults
  rw [List.map_map]
  have hfn : ((fun r : SearchResult => r.rank) ∘ (fun p : Nat × CodeChunk =>
      let c0 := p.2
      let c1 := if ic then c0 else { c0 with content := "" }
      let c2 := if ie then c1 else { c1 with embedding := none }
      { chunk := c2
        similarity_score := clampScore ((p.2).similarity_score.getD 0)
        rank := p.1 + 1 }))
      = (fun i : Nat => i + 1) ∘ Prod.fst := rfl
  rw [hfn, ← List.map_map, List.enum_map_fst]

/-! ### C5 — rank assignment and score monotonicity -/

/-- A stored chunk under `src/` used by the search fixtures. -/
def rec1 : StoredRecord :=
  { rid := 1, filePath := "src/a.py", fullyQualifiedName := "foo",
    nodeType := "function", language := "python", content := "def foo()",
    startLine := 1, endLine := 2, embedding := [0], lastModified := some 5,
    tokenCount := 3, charCount := 9 }

/-- A stored chunk under `lib/` in a different language. -/
def rec2 : StoredRecord :=
  { rid := 2, filePath := "lib/b.js", fullyQualifiedName := "bar",
    nodeType := "function", language := "javascript", content := "function bar()",
    startLine := 3, endLine := 7, embedding := [1], lastModified := some 6,
    tokenCount := 4, charCount := 14 }

/-- A concrete distance function for the fixtures: the first coordinate of
the stored embedding (so `rec1` scores 0 and `rec2` scores 1). -/
def distW (stored _query : List Rat) : Rat := stored.headD 0

/-- Claim C5 (counterexample): with the store ordering results by ascending
distance, a search returning two chunks at distances 0 and 1 assigns ranks
1 and 2 in that order, but the `similarity_score` values are 0 then 1 —
increasing, not monotonically non-increasing, because the handler clamps
the raw distance into `similarity_score`. -/
theorem c5_rank_order_counterexample :
    ((buildSearchResults true false
        (search_similar [rec1, rec2] distW [0] 10 none none none)).map
      (fun r => r.rank) = [1, 2]) ∧
    ((buildSearchResults true false
        (search_similar [rec1, rec2] distW [0] 10 none none none)).map
      (fun r => r.similarity_score) = [0, 1]) ∧
    ¬ List.Sorted (fun a b : Rat => b ≤ a)
      ((buildSearchResults true false
          (search_similar [rec1, rec2] distW [0] 10 none none none)).map
        (fun r => r.similarity_score)) := by
  refine ⟨by decide, by decide, by decide⟩

/-- Claim C5 (amended): results carry 1-based ranks in the order the store
returned them, and — the store ordering by ascending distance and the
handler clamping that raw distance into `similarity_score` — the scores are
monotonically non-DEcreasing by rank. -/
theorem c5_rank_and_score_order (records : List StoredRecord)
    (dist : List Rat → List Rat → Rat) (emb : List Rat) (topK : Nat)
    (langF : Option (List Language)) (typeF : Option (List NodeType))
    (pathF : Option String) (ic ie : Bool) :
    ((apiSearch records dist emb topK langF typeF pathF ic ie).map
        (fun r => r.rank)
      = (List.range (search_similar records dist emb topK langF typeF pathF).length).map
          (fun i => i + 1)) ∧
    List.Sorted (fun a b : Rat => a ≤ b)
      ((apiSearch records dist emb topK langF typeF pathF ic ie).map
        (fun r => r.similarity_score)) := by
  constructor
  · exact buildSearchResults_ranks ic ie _
  · unfold apiSearch
    rw [buildSearchResults_scores]
    have hbase := search_similar_scores_sorted records dist emb topK langF typeF pathF
    have : (search_similar records dist emb topK langF typeF pathF).map
        (fun c => clampScore (c.similarity_score.getD 0))
        = ((search_similar records dist emb topK langF typeF pathF).map
            (fun c => c.similarity_score.getD 0)).map clampScore := by
      rw [List.map_map]; rfl
    rw [this]
    exact List.Pairwise.map _ (fun _ _ h => clampScore_mono h) hbase

/-! ### C6 — filter correctness -/

theorem langOfString_value (l : Language) : langOfString l.value = some l := by
  cases l <;> rfl

theorem nodeTypeOfString_value (t : NodeType) : nodeTypeOfString t.value = some t := by
  cases t <;> rfl

theorem recordToChunk_fields (r : StoredRecord) (s : Rat) (c : CodeChunk)
    (h : recordToChunk r s = some c) :
    c.file_path = r.filePath ∧ langOfString r.language = some c.language ∧
      nodeTypeOfString r.nodeType = some c.node_type := by
  unfold recordToChunk at h
  cases hl : langOfString r.language with
  | none => rw [hl] at h; simp at h
  | some lang =>
      rw [hl] at h
      cases hn : nodeTypeOfString r.nodeType with
      | none => rw [hn] at h; simp at h
      | some nt =>
          rw [hn] at h
          simp only [Option.some.injEq] at h
          rw [← h]
          exact ⟨rfl, rfl, rfl⟩

/-- For a LIKE pattern `p ++ "%"` whose stem `p` is free of the wildcard
characters, a match implies that the subject starts with `p`. -/
theorem likeMatch_wildcard_free (p : List Char) :
    ∀ s : List Char, '%' ∉ p → '_' ∉ p →
      likeMatch (p ++ ['%']) s = true → p.isPrefixOf s = true := by
  induction p with
  | nil =>
      intro s _ _ _
      cases s <;> rfl
  | cons c ps ih =>
      intro s hpc hus h
      have hc : c ≠ '%' := fun hcp => hpc (hcp ▸ List.mem_cons_self c ps)
      have hu : c ≠ '_' := fun hcp => hus (hcp ▸ List.mem_cons_self c ps)
      rw [List.cons_append] at h
      unfold likeMatch at h
      rw [if_neg hc] at h
      cases s with
      | nil => simp at h
      | cons d ss =>
          simp only [Bool.and_eq_true, Bool.or_eq_true, beq_iff_eq] at h
          obtain ⟨hcd, hrec⟩ := h
          have hcd' : c = d := by
            cases hcd with
            | inl h1 => exact absurd h1 hu
            | inr h2 => exact h2
          show ((c == d) && ps.isPrefixOf ss) = true
          simp only [Bool.and_eq_true, beq_iff_eq]
          exact ⟨hcd', ih ss (fun hm => hpc (List.mem_cons_of_mem c hm))
            (fun hm => hus (List.mem_cons_of_mem c hm)) hrec⟩

/-- Claim C6 (amended): every chunk a search returns satisfies the language
and node-type filters that were given (the filters are conjoined), and
absent filters impose no constraint; the path filter guarantees a
starts-with relation only when the prefix is free of the SQL LIKE wildcard
characters `%` and `_`, because the prefix is embedded unescaped in the
LIKE pattern. -/
theorem c6_filter_correctness (records : List StoredRecord)
    (dist : List Rat → List Rat → Rat) (emb : List Rat) (topK : Nat)
    (langF : Option (List Language)) (typeF : Option (List NodeType))
    (pathF : Option String) (c : CodeChunk)
    (hc : c ∈ search_similar records dist emb topK langF typeF pathF) :
    (∀ ls, langF = some ls → ls ≠ [] → c.language ∈ ls) ∧
    (∀ ts, typeF = some ts → ts ≠ [] → c.node_type ∈ ts) ∧
    (∀ p, pathF = some p → p ≠ "" → '%' ∉ p.data → '_' ∉ p.data →
      pyStartsWith c.file_path p = true) ∧
    (∀ r : StoredRecord, matchesFilters none none none r = true) := by
  unfold search_similar at hc
  obtain ⟨pr, hpr, hconv⟩ := List.mem_filterMap.mp hc
  have hmem1 : pr ∈ List.insertionSort scoreLe
      ((records.filter (matchesFilters langF typeF pathF)).map
        (fun r => (r, dist r.embedding emb))) :=
    List.Sublist.mem hpr (List.take_sublist _ _)
  have hmem2 : pr ∈ (records.filter (matchesFilters langF typeF pathF)).map
      (fun r => (r, dist r.embedding emb)) :=
    (List.perm_insertionSort scoreLe _).mem_iff.mp hmem1
  obtain ⟨r, hr, hpr2⟩ := List.mem_map.mp hmem2
  have hfilt : matchesFilters langF typeF pathF r = true := List.of_mem_filter hr
  subst hpr2
  have hconv' : recordToChunk r (dist r.embedding emb) = some c := hconv
  obtain ⟨hfp, hlang, htype⟩ := recordToChunk_fields _ _ _ hconv'
  simp only [matchesFilters, Bool.and_eq_true] at hfilt
  obtain ⟨⟨hl, ht⟩, hp⟩ := hfilt
  refine ⟨?_, ?_, ?_, ?_⟩
  · intro ls hls hne
    subst hls
    cases ls with
    | nil => exact absurd rfl hne
    | cons x xs =>
        unfold langCond at hl
        simp only [decide_eq_true_eq] at hl
        obtain ⟨y, hy, hyv⟩ := List.mem_map.mp hl
        rw [← hyv, langOfString_value] at hlang
        have : y = c.language := by
          injection hlang
        rw [← this]
        exact hy
  · intro ts hts hne
    subst hts
    cases ts with
    | nil => exact absurd rfl hne
    | cons x xs =>
        unfold typeCond at ht
        simp only [decide_eq_true_eq] at ht
        obtain ⟨y, hy, hyv⟩ := List.mem_map.mp ht
        rw [← hyv, nodeTypeOfString_value] at htype
        have : y = c.node_type := by
          injection htype
        rw [← this]
        exact hy
  · intro p hpeq hpne hnw hnu
    subst hpeq
    unfold pathCond at hp
    have hp' : (if p = "" then true else sqlLikeMatch (p ++ "%") r.filePath) = true := hp
    rw [if_neg hpne] at hp'
    unfold sqlLikeMatch at hp'
    rw [String.data_append] at hp'
    have hlike : likeMatch (p.data ++ ['%']) r.filePath.data = true := hp'
    rw [hfp]
    exact likeMatch_wildcard_free p.data r.filePath.data hnw hnu hlike
  · intro r'
    rfl

/-- The chunk that `search_similar` produces from `rec1` at distance 0. -/
def chunkW : CodeChunk :=
  { id := some 1, file_path := "src/a.py", fully_qualified_name := "foo",
    node_type := .function, language := .python, content := "def foo()",
    start_line := 1, end_line := 2, embedding := some [0], last_modified := some 5,
    similarity_score := some 0, token_count := some 3, char_count := 9 }

/-- Witness for C6: a search filtered to language `python` and the
wildcard-free path `src/` returns `chunkW`, whose language and path satisfy
the filters. -/
theorem c6_filter_witness :
    chunkW.language ∈ [Language.python] ∧
    pyStartsWith chunkW.file_path "src/" = true := by
  have h := c6_filter_correctness [rec1, rec2] distW [0] 10
    (some [Language.python]) none (some "src/") chunkW (by decide)
  exact ⟨h.1 [Language.python] rfl (by decide),
    h.2.2.1 "src/" rfl (by decide) (by decide) (by decide)⟩

/-- A stored chunk whose path contains the LIKE single-character wildcard
match opportunity: it does not start with the filter below. -/
def recLike : StoredRecord :=
  { rid := 3, filePath := "abc", fullyQualifiedName := "baz",
    nodeType := "function", language := "python", content := "x",
    startLine := 1, endLine := 1, embedding := [0], lastModified := none,
    tokenCount := 1, charCount := 1 }

/-- The chunk `search_similar` produces from `recLike` at distance 0. -/
def chunkLike : CodeChunk :=
  { id := some 3, file_path := "abc", fully_qualified_name := "baz",
    node_type := .function, language := .python, content := "x",
    start_line := 1, end_line := 1, embedding := some [0], last_modified := none,
    similarity_score := some 0, token_count := some 1, char_count := 1 }

/-- Claim C6 (counterexample): the path filter is sent unescaped inside a
LIKE pattern, so a prefix containing the SQL wildcard `%` can return a
chunk whose path does not start with it: filtering with `file_path_prefix
= "%b"` (pattern `%b%`) returns the chunk at path `abc`, which does not
start with `%b`. -/
theorem c6_like_wildcard_counterexample :
    (chunkLike ∈ search_similar [recLike] distW [0] 10 none none (some "%b")) ∧
    pyStartsWith chunkLike.file_path "%b" = false ∧
    ("%b" : String) ≠ "" := by
  refine ⟨by decide, by decide, by decide⟩

/-! ### C7 — directory filtering by mode -/

/-- A Python file inside the excluded `bin` directory. -/
def fBin : FsFile :=
  { pathStr := "repo/bin/app.py", parts := ["repo", "bin", "app.py"], suffix := ".py" }

/-- A git diff reporting `fBin` as modified. -/
def diffW : List DiffItem :=
  [{ aPath := some fBin, bPath := none, deletedFile := false, changeType := "M" }]

/-- Claim C7 (counterexample): the directory filter is NOT applied in
incremental mode. A modified file under `bin/` is selected for indexing by
`_get_changed_files`, although its path is excluded and the full scan
rejects the very same file. -/
theorem c7_incremental_filter_counterexample :
    ((fBin, Language.python)
        ∈ (_get_changed_files diffW [] (fun _ => true) [Language.python] true [fBin]).1) ∧
    isExcludedPath fBin.parts = true ∧
    find_source_files [fBin] [Language.python] = [] := by
  refine ⟨by decide, by decide, by decide⟩

/-- Claim C7 (amended): the full non-incremental scan (and the full-scan
fallback taken when reading git state fails) never selects a file lying
under a hidden, build/output or dependency-manager directory; the
incremental git-diff path applies no such directory filter. -/
theorem c7_full_scan_excludes :
    (∀ (files : List FsFile) (langs : List Language) (p : FsFile × Language),
        p ∈ find_source_files files langs → isExcludedPath p.1.parts = false) ∧
    (∀ (diff : List DiffItem) (untracked : List FsFile) (existsFs : FsFile → Bool)
        (langs : List Language) (allFiles : List FsFile),
        _get_changed_files diff untracked existsFs langs false allFiles
          = (find_source_files allFiles langs, [])) := by
  constructor
  · intro files langs p hp
    unfold find_source_files at hp
    obtain ⟨f, _, hsome⟩ := List.mem_filterMap.mp hp
    split at hsome
    · split at hsome
      · cases hsome
      · rename_i hexcl
        cases hdet : detect_language f.suffix with
        | none => rw [hdet] at hsome; cases hsome
        | some l =>
            rw [hdet] at hsome
            simp only [Option.some.injEq] at hsome
            rw [← hsome]
            simpa using hexcl
    · cases hsome
  · intro diff untracked existsFs langs allFiles
    rfl

/-- A Python file outside every excluded directory. -/
def fGood : FsFile :=
  { pathStr := "repo/app.py", parts := ["repo", "app.py"], suffix := ".py" }

/-- Witness for C7: a file outside every excluded directory is selected by
the full scan, and the amended theorem confirms its path is not excluded. -/
theorem c7_full_scan_witness : isExcludedPath fGood.parts = false :=
  c7_full_scan_excludes.1 [fGood] [Language.python] (fGood, Language.python) (by decide)

/-! ### C8 — qualified-name fallback -/

/-- A C# class declaration node with no discoverable name, starting on the
first line of the file (0-based row 0). -/
def nodeC8 : TsNode :=
  { tsType := "class_declaration", startRow := 0, endRow := 2,
    text := "class", nameField := none, children := [] }

/-- Claim C8 (counterexample): the fallback qualified name is built from
the RAW tree-sitter node type and the 0-BASED start row — for a nameless
`class_declaration` on line 1 it is `"class_declaration_0"`, not the
claimed `"{mapped node_type}_{1-based start_line}"` = `"class_1"`. -/
theorem c8_fallback_counterexample :
    (Option.map (fun ch => ch.fully_qualified_name)
        (_create_chunk nodeC8 "a.cs" "" Language.csharp) = some "class_declaration_0") ∧
    ((_map_node_type nodeC8.tsType).value ++ "_" ++ toString (nodeC8.startRow + 1)
        = "class_1") ∧
    "class_declaration_0" ≠ "class_1" := by
  refine ⟨by decide, by decide, by decide⟩

/-- Claim C8 (amended): a chunk with no discoverable name falls back to the
raw tree-sitter type joined with the 0-based start row, which is always
non-empty; a chunk with a discoverable name in a file with a namespace gets
`namespace.name`. -/
theorem c8_fallback_name (node : TsNode) (file_path nspace : String)
    (lang : Language) :
    ∀ ch, _create_chunk node file_path nspace lang = some ch →
      ((_extract_node_name node = "" →
          ch.fully_qualified_name = node.tsType ++ "_" ++ toString node.startRow ∧
          0 < ch.fully_qualified_name.length) ∧
       (_extract_node_name node ≠ "" → nspace ≠ "" →
          ch.fully_qualified_name = nspace ++ "." ++ _extract_node_name node)) := by
  intro ch h
  unfold _create_chunk at h
  split at h
  · cases h
  · simp only [Option.some.injEq] at h
    constructor
    · intro hname
      rw [← h]
      simp only [hname]
      constructor
      · simp
      · simp [String.length_append]
        have : ("_" : String).length = 1 := by decide
        simp [this]
    · intro h1 h2
      rw [← h]
      simp [h1, h2]

/-- A C# method node carrying a name field, inside namespace `MyNs`. -/
def nodeW : TsNode :=
  { tsType := "method_declaration", startRow := 4, endRow := 9,
    text := "void Foo()", nameField := some "Foo", children := [] }

/-- Witness for C8: the named node under a namespace yields the qualified
name `namespace.name`. -/
theorem c8_fallback_witness :
    Option.map (fun ch => ch.fully_qualified_name)
        (_create_chunk nodeW "a.cs" "MyNs" Language.csharp)
      = some ("MyNs" ++ "." ++ _extract_node_name nodeW) := by
  cases hc : _create_chunk nodeW "a.cs" "MyNs" Language.csharp with
  | none => exact absurd hc (by decide)
  | some ch =>
      have hf := (c8_fallback_name nodeW "a.cs" "MyNs" Language.csharp ch hc).2
        (by decide) (by decide)
      simp [hf]

end CodeIndex
